import Mathlib

/-!
Verification of the markdown-artifact editing agent (`src/agent/graph.py`).

The agent keeps a single mutable markdown document (the artifact) in its
graph state and edits it through three tool operations emitted by a
language model.  This file gives a shallow embedding of the pure core:
the three edit operations and their dispatch (`apply_edits`), the routing
predicate (`should_continue`), the UI-notification emission of the model
node (`agent`), and the per-turn loop of the compiled graph, with the
model invocation itself treated as an opaque input (a scripted list of
responses).

Document content is modelled as `List Char`.  Python string primitives
used by the code are modelled on `List Char`:
  * `str.rstrip()`  → `rstrip` (trailing ASCII whitespace; the code never
    feeds it content where the extra Unicode whitespace classes matter),
  * `old in s`      → `containsSub`,
  * `s.replace(old, new)` → `replaceAll` (leftmost, non-overlapping,
    global; the code guards `old` nonempty, so the diverging
    empty-pattern behaviour of Python is unreachable and `replaceAll`
    returns the input there).
-/

/-- Document content, a Python `str` as a list of characters. -/
abbrev Content := List Char

/-- `DEFAULT_ARTIFACT` from `graph.py`: the fixed placeholder document used
whenever no artifact exists yet in the incoming state. -/
def DEFAULT_ARTIFACT : Content :=
  ("# Documento\n\nBenvenuto! Questo e\x27 il tuo documento markdown.\n\n## Sezioni\n\nPuoi chiedere all\x27agente di:\n- Aggiungere nuove sezioni\n- Modificare il contenuto\n- Formattare il testo\n- Creare liste e tabelle\n\nInizia a chattare per modificare questo documento!\n").data

/-- Characters stripped by Python `str.rstrip()` (the ASCII whitespace set
`' \t\n\r\x0b\x0c'`; Unicode-only whitespace is not used by this program). -/
def isPySpace (c : Char) : Bool :=
  c = ' ' || c = '\t' || c = '\n' || c = '\r' || c = '\x0b' || c = '\x0c'

/-- Python `s.rstrip()`: drop trailing whitespace characters. -/
def rstrip (a : Content) : Content :=
  (a.reverse.dropWhile isPySpace).reverse

/-- Python `t in a` for strings: `t` occurs as a contiguous substring of `a`. -/
def containsSub (t a : Content) : Bool :=
  match a with
  | [] => t.isEmpty
  | _ :: rest => t.isPrefixOf a || containsSub t rest

/-- Python `a.replace(t, u)` for a nonempty pattern `t`: scan left to right;
at each position, if `t` matches, emit `u` and skip past the match,
otherwise copy one character.  (The code only calls this under the guard
`old and old in artifact`, so the `t = []` arm is unreachable; it returns
the input unchanged there.) -/
def replaceAll : Content → Content → Content → Content
  | a, [], _ => a
  | [], _ :: _, _ => []
  | c :: rest, x :: xs, u =>
    if (x :: xs).isPrefixOf (c :: rest) then
      u ++ replaceAll ((c :: rest).drop (x :: xs).length) (x :: xs) u
    else
      c :: replaceAll rest (x :: xs) u
termination_by a _ _ => a.length
decreasing_by
  · simp [List.length_drop]
    omega
  · simp

/-- Specification-side definition, following the spec's words for
`replace-text`: the content split at each (leftmost, non-overlapping)
occurrence of the pattern.  Rejoining the pieces with the replacement
realises "all occurrences of `oldText` replaced by `newText`". -/
def splitOnOcc : Content → Content → List Content
  | a, [] => [a]
  | [], _ :: _ => [[]]
  | c :: rest, x :: xs =>
    if (x :: xs).isPrefixOf (c :: rest) then
      [] :: splitOnOcc ((c :: rest).drop (x :: xs).length) (x :: xs)
    else
      match splitOnOcc rest (x :: xs) with
      | [] => [[c]]
      | y :: ys => (c :: y) :: ys
termination_by a _ => a.length
decreasing_by
  · simp [List.length_drop]
    omega
  · simp

/-- Specification-side: interleave the separator `u` between the pieces. -/
def joinWith (u : Content) : List Content → Content
  | [] => []
  | [x] => x
  | x :: y :: ys => x ++ u ++ joinWith u (y :: ys)

/-- A tool call as seen by `apply_edits`: `call.get("name", "")` and
`call.get("args", {})`, the arguments being a string-to-string mapping. -/
structure ToolCall where
  name : String
  args : List (String × Content)
deriving DecidableEq, Repr

/-- Python `args.get(key, "")` (and `args.get(key)` under truthiness:
`None` and `""` are both falsy, so both are modelled as `[]`). -/
def getArg (args : List (String × Content)) (key : String) : Content :=
  match args.find? (fun p => p.fst == key) with
  | some p => p.snd
  | none => []

/-- The dispatch body of `apply_edits` for one tool call
(graph.py lines 166-177): the `if/elif` chain over the operation name,
with Python truthiness on the required arguments. -/
def applyToolCall (call : ToolCall) (artifact : Content) : Content :=
  if call.name == "update_document" && !(getArg call.args "new_content").isEmpty then
    getArg call.args "new_content"
  else if call.name == "append_to_document" && !(getArg call.args "content_to_add").isEmpty then
    rstrip artifact ++ '\n' :: '\n' :: getArg call.args "content_to_add"
  else if call.name == "replace_text" then
    let old := getArg call.args "old_text"
    let neu := getArg call.args "new_text"
    if !old.isEmpty && containsSub old artifact then replaceAll artifact old neu
    else artifact
  else
    artifact

/-- `for call in msg.tool_calls: artifact = ...` — sequential application
of a batch of tool calls, each seeing the artifact left by the previous. -/
def applyCalls (calls : List ToolCall) (artifact : Content) : Content :=
  calls.foldl (fun acc c => applyToolCall c acc) artifact

/-- A history element.  `isAI` models `isinstance(msg, AIMessage)`; only AI
messages carry the `tool_calls` attribute (for non-AI messages the
`toolCalls` field is meaningless and `hasattr` is `false`, i.e. `isAI`). -/
structure Message where
  isAI : Bool
  id : String
  content : Content
  toolCalls : List ToolCall
deriving DecidableEq, Repr

/-- The langgraph `END` sentinel returned by `should_continue`. -/
def ENDNODE : String := "__end__"

/-- `should_continue` (graph.py lines 183-188): look at the last message if
any; route to `"tools"` exactly when it exists, has the `tool_calls`
attribute (an AI message) and carries a nonempty tool-call list. -/
def shouldContinue (msgs : List Message) : String :=
  match msgs.getLast? with
  | none => ENDNODE
  | some last => if last.isAI && !last.toolCalls.isEmpty then "tools" else ENDNODE

/-- The scan of `apply_edits` (lines 162-178) over `reversed(state["messages"])`:
the first element (of the reversed list) that is an AI message with a
nonempty `tool_calls` list. -/
def findEditMsgRev : List Message → Option Message
  | [] => none
  | m :: rest =>
    if m.isAI && !m.toolCalls.isEmpty then some m else findEditMsgRev rest

/-- `apply_edits` after the artifact has been defaulted: apply the batch of
the most recent AI message with tool calls, if any, else leave the
artifact alone. -/
def applyEditsCore (msgs : List Message) (artifact : Content) : Content :=
  match findEditMsgRev msgs.reverse with
  | some m => applyCalls m.toolCalls artifact
  | none => artifact

/-- `state.get("artifact") or DEFAULT_ARTIFACT` (lines 130 and 159): an
absent key gives Python `None` and an empty string is falsy, so both fall
back to the default document. -/
def orDefault (a : Option Content) : Content :=
  match a with
  | none => DEFAULT_ARTIFACT
  | some s => if s.isEmpty then DEFAULT_ARTIFACT else s

/-- A UI side-channel record pushed by `push_ui_message`. -/
structure UINotification where
  kind : String
  content : Content
  title : Content
  msgId : String
deriving DecidableEq, Repr

/-- The graph state: message history (merge rule: append), UI records
(merge rule: append) and the artifact (replace-on-write; `none` models an
absent key). -/
structure AgentState where
  messages : List Message
  ui : List UINotification
  artifact : Option Content
deriving DecidableEq, Repr

/-- One opaque model response: the external adapter returns content and
zero or more tool calls; the node assigns the message a fresh id. -/
structure ModelResponse where
  id : String
  content : Content
  toolCalls : List ToolCall
deriving DecidableEq, Repr

/-- The `AIMessage` built by the `agent` node from a model response
(`tool_calls=response.tool_calls or []`). -/
def mkAIMessage (r : ModelResponse) : Message :=
  { isAI := true, id := r.id, content := r.content, toolCalls := r.toolCalls }

/-- The notification pushed by `push_ui_message("markdown_artifact", ...)`. -/
def mkNotif (artifact : Content) (msgId : String) : UINotification :=
  { kind := "markdown_artifact", content := artifact,
    title := "Documento Markdown".data, msgId := msgId }

/-- UI records emitted by one run of the `agent` node (lines 146-152): one
notification carrying the current artifact exactly when the response has
no tool calls, none otherwise. -/
def agentUI (artifactField : Option Content) (r : ModelResponse) : List UINotification :=
  if r.toolCalls.isEmpty then [mkNotif (orDefault artifactField) r.id] else []

/-- The `agent` node: append the AI message; push the UI record when the
response terminates the turn.  The artifact field is not written. -/
def agentStep (st : AgentState) (r : ModelResponse) : AgentState :=
  { st with
    messages := st.messages ++ [mkAIMessage r],
    ui := st.ui ++ agentUI st.artifact r }

/-- The fixed confirmation string each tool returns (lines 56-89). -/
def toolReply (name : String) : Content :=
  if name == "update_document" then "Document updated successfully.".data
  else if name == "append_to_document" then "Content appended successfully.".data
  else if name == "replace_text" then "Text replaced successfully.".data
  else []

/-- The synthetic tool-result message appended by the `ToolNode` for one
tool call. -/
def toolResultMsg (c : ToolCall) : Message :=
  { isAI := false, id := "", content := toolReply c.name, toolCalls := [] }

/-- The `tools` node: one tool-result message per tool call, appended. -/
def toolsStep (st : AgentState) (calls : List ToolCall) : AgentState :=
  { st with messages := st.messages ++ calls.map toolResultMsg }

/-- The `apply_edits` node: default the artifact field, apply the latest
batch, write the result back (replace-on-write). -/
def applyEditsNode (st : AgentState) : AgentState :=
  { st with artifact := some (applyEditsCore st.messages (orDefault st.artifact)) }

/-- One turn of the compiled graph, driven by a script of opaque model
responses: `agent` → (`should_continue`) → either end, or `tools` →
`apply_edits` → `agent` again.  An exhausted script stops the loop. -/
def runTurn (script : List ModelResponse) (st : AgentState) : AgentState :=
  match script with
  | [] => st
  | r :: rest =>
    let st1 := agentStep st r
    if shouldContinue st1.messages = "tools" then
      runTurn rest (applyEditsNode (toolsStep st1 r.toolCalls))
    else
      st1

-- Sanity checks against Python semantics (CPython: "aab".replace("ab","b") = "ab").
example : replaceAll "aab".data "ab".data "b".data = "ab".data := by simp [replaceAll]
example : replaceAll "banana".data "an".data "xy".data = "bxyxya".data := by simp [replaceAll]
example : rstrip "X \n\t".data = "X".data := by decide
example : containsSub "an".data "banana".data = true := by decide
example : containsSub "".data "".data = true := by decide
example : containsSub "z".data "".data = false := by decide
example : applyToolCall ⟨"replace_text", [("old_text", "a".data)]⟩ "ab".data = "b".data := by
  simp [applyToolCall, getArg, containsSub, replaceAll]

/-- `splitOnOcc` always produces at least one piece. -/
theorem splitOnOcc_ne_nil (a t : Content) : splitOnOcc a t ≠ [] := by
  match a, t with
  | a, [] => simp [splitOnOcc]
  | [], x :: xs => simp [splitOnOcc]
  | c :: rest, x :: xs =>
    rw [splitOnOcc]
    split
    · simp
    · split <;> simp

/-- Joining after an empty leading piece emits the separator first. -/
theorem joinWith_nil_cons (u : Content) (l : List Content) (h : l ≠ []) :
    joinWith u ([] :: l) = u ++ joinWith u l := by
  cases l with
  | nil => exact absurd rfl h
  | cons y ys => simp [joinWith]

/-- A character prepended to the first piece passes through the join. -/
theorem joinWith_cons_cons (u : Content) (c : Char) (y : Content) (ys : List Content) :
    joinWith u ((c :: y) :: ys) = c :: joinWith u (y :: ys) := by
  cases ys <;> simp [joinWith]

/-- The implementation's scan-and-replace coincides with the specification
reading "all occurrences replaced": split at each occurrence, rejoin with
the replacement. -/
theorem replaceAll_eq_joinWith (u a t : Content) :
    replaceAll a t u = joinWith u (splitOnOcc a t) := by
  induction a, t using splitOnOcc.induct with
  | case1 a => simp [replaceAll, splitOnOcc, joinWith]
  | case2 x xs => simp [replaceAll, splitOnOcc, joinWith]
  | case3 c rest x xs hpre ih =>
    rw [replaceAll, splitOnOcc, if_pos hpre, if_pos hpre, ih,
      joinWith_nil_cons _ _ (splitOnOcc_ne_nil _ _)]
  | case4 c rest x xs hpre hnil ih =>
    exact absurd hnil (splitOnOcc_ne_nil _ _)
  | case5 c rest x xs hpre y ys hsp ih =>
    rw [replaceAll, splitOnOcc, if_neg hpre, if_neg hpre, hsp, ih, hsp,
      joinWith_cons_cons]

/-- C1: Applying the replace-text operation (tool name `replace_text`) with a
nonempty `old_text` `T` that is a literal substring of the artifact `A`
yields `A` with every (leftmost, non-overlapping) occurrence of `T`
replaced by `new_text` `U` — formalised as rejoining with `U` the pieces of
`A` split at each occurrence of `T`, a global replace; with `T` empty or
not a substring of `A`, the operation returns `A` unchanged (and, being a
total function, cannot raise). -/
theorem c1_replace_text_global (A T U : Content) :
    (T ≠ [] → containsSub T A = true →
      applyToolCall ⟨"replace_text", [("old_text", T), ("new_text", U)]⟩ A
        = joinWith U (splitOnOcc A T)) ∧
    ((T = [] ∨ containsSub T A = false) →
      applyToolCall ⟨"replace_text", [("old_text", T), ("new_text", U)]⟩ A = A) := by
  constructor
  · intro hT hA
    have hT2 : T.isEmpty = false := by
      cases T with
      | nil => exact absurd rfl hT
      | cons c cs => rfl
    simp [applyToolCall, getArg, hA, hT2, replaceAll_eq_joinWith]
  · rintro (h | h)
    · subst h
      simp [applyToolCall, getArg]
    · simp [applyToolCall, getArg, h]

/-- Witness for C1 at concrete inputs: `"an"` occurs in `"banana"`, `"zz"`
does not. -/
theorem c1_replace_text_global_witness :
    applyToolCall ⟨"replace_text", [("old_text", "an".data), ("new_text", "xy".data)]⟩
        "banana".data
      = joinWith "xy".data (splitOnOcc "banana".data "an".data) ∧
    applyToolCall ⟨"replace_text", [("old_text", "zz".data), ("new_text", "xy".data)]⟩
        "banana".data
      = "banana".data :=
  ⟨(c1_replace_text_global "banana".data "an".data "xy".data).1 (by decide) (by decide),
   (c1_replace_text_global "banana".data "zz".data "xy".data).2 (Or.inr (by decide))⟩

/-- C2: Applying the append operation (tool name `append_to_document`) with a
nonempty `content_to_add` `S` yields the artifact right-trimmed of trailing
whitespace, then exactly two newline characters, then `S`; with `S` empty
or absent the artifact is unchanged. -/
theorem c2_append_spec (A S : Content) :
    (S ≠ [] →
      applyToolCall ⟨"append_to_document", [("content_to_add", S)]⟩ A
        = rstrip A ++ '\n' :: '\n' :: S) ∧
    (S = [] → applyToolCall ⟨"append_to_document", [("content_to_add", S)]⟩ A = A) ∧
    applyToolCall ⟨"append_to_document", []⟩ A = A := by
  refine ⟨?_, ?_, ?_⟩
  · intro hS
    have hS2 : S.isEmpty = false := by
      cases S with
      | nil => exact absurd rfl hS
      | cons c cs => rfl
    simp [applyToolCall, getArg, hS2]
  · intro hS
    subst hS
    simp [applyToolCall, getArg]
  · simp [applyToolCall, getArg]

/-- Witness for C2 at concrete inputs. -/
theorem c2_append_spec_witness :
    applyToolCall ⟨"append_to_document", [("content_to_add", "Hi".data)]⟩ "Doc \n".data
      = rstrip "Doc \n".data ++ '\n' :: '\n' :: "Hi".data ∧
    applyToolCall ⟨"append_to_document", [("content_to_add", "".data)]⟩ "Doc \n".data
      = "Doc \n".data :=
  ⟨(c2_append_spec "Doc \n".data "Hi".data).1 (by decide),
   (c2_append_spec "Doc \n".data "".data).2.1 rfl⟩

/-- C3: Applying the full-replace operation (tool name `update_document`)
with a nonempty `new_content` `S` yields exactly `S`; with `S` empty or
absent the artifact is returned unchanged (a no-op, not an error). -/
theorem c3_full_replace_spec (A S : Content) :
    (S ≠ [] → applyToolCall ⟨"update_document", [("new_content", S)]⟩ A = S) ∧
    (S = [] → applyToolCall ⟨"update_document", [("new_content", S)]⟩ A = A) ∧
    applyToolCall ⟨"update_document", []⟩ A = A := by
  refine ⟨?_, ?_, ?_⟩
  · intro hS
    have hS2 : S.isEmpty = false := by
      cases S with
      | nil => exact absurd rfl hS
      | cons c cs => rfl
    simp [applyToolCall, getArg, hS2]
  · intro hS
    subst hS
    simp [applyToolCall, getArg]
  · simp [applyToolCall, getArg]

/-- Witness for C3 at concrete inputs. -/
theorem c3_full_replace_spec_witness :
    applyToolCall ⟨"update_document", [("new_content", "New".data)]⟩ "Old".data = "New".data ∧
    applyToolCall ⟨"update_document", [("new_content", "".data)]⟩ "Old".data = "Old".data :=
  ⟨(c3_full_replace_spec "Old".data "New".data).1 (by decide),
   (c3_full_replace_spec "Old".data "".data).2.1 rfl⟩

/-- C4: Within one assistant message's batch, operations are applied
sequentially in declaration order, each on the artifact left by the
previous one; in particular the batch
`[full-replace("X"), append("Y")]` yields `"X\n\nY"` from any starting
artifact. -/
theorem c4_batch_sequential :
    (∀ (c : ToolCall) (cs : List ToolCall) (A : Content),
      applyCalls (c :: cs) A = applyCalls cs (applyToolCall c A)) ∧
    ∀ A : Content,
      applyCalls [⟨"update_document", [("new_content", "X".data)]⟩,
                  ⟨"append_to_document", [("content_to_add", "Y".data)]⟩] A
        = "X\n\nY".data := by
  constructor
  · intro c cs A
    rfl
  · intro A
    have h1 : applyToolCall ⟨"update_document", [("new_content", "X".data)]⟩ A
        = "X".data := by
      simp [applyToolCall, getArg]
    simp only [applyCalls, List.foldl_cons, List.foldl_nil, h1]
    decide

/-- C5: The routing predicate is a function of the latest message only;
it answers `"tools"` exactly when the last message carries the
`tool_calls` attribute (an AI message) with a nonempty list, answers the
`END` sentinel otherwise, and answers `END` on an empty history. -/
theorem c5_should_continue_spec :
    (∀ (msgs msgs2 : List Message) (m : Message),
      shouldContinue (msgs ++ [m]) = shouldContinue (msgs2 ++ [m])) ∧
    (∀ (msgs : List Message) (m : Message),
      shouldContinue (msgs ++ [m]) = "tools" ↔ m.isAI = true ∧ m.toolCalls ≠ []) ∧
    (∀ (msgs : List Message) (m : Message),
      ¬(m.isAI = true ∧ m.toolCalls ≠ []) → shouldContinue (msgs ++ [m]) = ENDNODE) ∧
    shouldContinue [] = ENDNODE := by
  have hlast : ∀ (msgs : List Message) (m : Message),
      shouldContinue (msgs ++ [m])
        = if m.isAI && !m.toolCalls.isEmpty then "tools" else ENDNODE := by
    intro msgs m
    simp [shouldContinue]
  refine ⟨?_, ?_, ?_, rfl⟩
  · intro msgs msgs2 m
    rw [hlast, hlast]
  · intro msgs m
    rw [hlast]
    cases hAI : m.isAI <;> cases hTC : m.toolCalls <;>
      simp [hAI, hTC, ENDNODE]
  · intro msgs m h
    rw [hlast]
    cases hAI : m.isAI <;> cases hTC : m.toolCalls <;>
      simp [hAI, hTC] at h ⊢

/-- Witness for C5: a history ending in a non-AI message routes to `END`. -/
theorem c5_should_continue_spec_witness :
    shouldContinue ([] ++ [⟨false, "u1", "hello".data, []⟩]) = ENDNODE :=
  c5_should_continue_spec.2.2.1 [] ⟨false, "u1", "hello".data, []⟩ (by decide)

/-- Counterexample to C6 as stated: a `replace_text` call whose arguments
mapping is missing the required parameter `new_text` is not a no-op — with
`old_text = "a"` present in the artifact `"ab"`, Python defaults the
missing `new_text` to `""` and deletes the occurrence, yielding `"b"`. -/
theorem c6_missing_param_counterexample :
    applyToolCall ⟨"replace_text", [("old_text", "a".data)]⟩ "ab".data = "b".data ∧
    "b".data ≠ "ab".data := by
  constructor
  · simp [applyToolCall, getArg, containsSub, replaceAll]
  · decide

/-- C6 amended: a missing or empty `new_content`, `content_to_add`, or
`old_text` makes the call a no-op (never an error); but a missing or empty
`new_text` of `replace_text` is NOT a no-op — it is treated as the empty
string, so when `old_text` is nonempty and present, its occurrences are
deleted. -/
theorem c6_missing_params_amended (A : Content) (args : List (String × Content)) :
    (getArg args "new_content" = [] → applyToolCall ⟨"update_document", args⟩ A = A) ∧
    (getArg args "content_to_add" = [] → applyToolCall ⟨"append_to_document", args⟩ A = A) ∧
    (getArg args "old_text" = [] → applyToolCall ⟨"replace_text", args⟩ A = A) ∧
    (getArg args "new_text" = [] → getArg args "old_text" ≠ [] →
      containsSub (getArg args "old_text") A = true →
      applyToolCall ⟨"replace_text", args⟩ A = replaceAll A (getArg args "old_text") []) := by
  refine ⟨?_, ?_, ?_, ?_⟩
  · intro h
    simp [applyToolCall, h]
  · intro h
    simp [applyToolCall, h]
  · intro h
    simp [applyToolCall, h]
  · intro hNew hOld hIn
    have hOld2 : (getArg args "old_text").isEmpty = false := by
      cases hO : getArg args "old_text" with
      | nil => exact absurd hO hOld
      | cons c cs => rfl
    simp [applyToolCall, hNew, hOld2, hIn]

/-- Witness for the amended C6: missing `new_content` is a no-op; a missing
`new_text` with matching `old_text` deletes the match. -/
theorem c6_missing_params_amended_witness :
    applyToolCall ⟨"update_document", []⟩ "ab".data = "ab".data ∧
    applyToolCall ⟨"replace_text", [("old_text", "a".data)]⟩ "ab".data
      = replaceAll "ab".data "a".data [] :=
  ⟨(c6_missing_params_amended "ab".data []).1 rfl,
   (c6_missing_params_amended "ab".data [("old_text", "a".data)]).2.2.2
     rfl (by decide) (by decide)⟩

/-- Messages none of which qualify as "AI with tool calls" are skipped by
the reversed scan of `apply_edits`. -/
theorem findEditMsgRev_append_of_skip (l1 l2 : List Message)
    (h : ∀ p ∈ l1, p.isAI = false ∨ p.toolCalls = []) :
    findEditMsgRev (l1 ++ l2) = findEditMsgRev l2 := by
  induction l1 with
  | nil => rfl
  | cons p ps ih =>
    have hp := h p (by simp)
    have hcond : (p.isAI && !p.toolCalls.isEmpty) = false := by
      rcases hp with h1 | h1 <;> simp [h1]
    simp only [List.cons_append, findEditMsgRev, hcond, Bool.false_eq_true, if_false]
    exact ih (fun q hq => h q (by simp [hq]))

/-- C7: The edit-application step applies the tool calls of exactly the most
recent AI message that carries tool calls: whenever `m` is an AI message
with a nonempty batch and nothing after it qualifies, the artifact becomes
`m`'s batch applied to the input — independent of everything before `m`
(in particular of any earlier AI messages with tool calls, which are not
re-applied). -/
theorem c7_latest_tool_message_only (pre post : List Message) (m : Message) (A : Content)
    (hm : m.isAI = true) (hc : m.toolCalls ≠ [])
    (hpost : ∀ p ∈ post, p.isAI = false ∨ p.toolCalls = []) :
    applyEditsCore (pre ++ m :: post) A = applyCalls m.toolCalls A := by
  have hcond : (m.isAI && !m.toolCalls.isEmpty) = true := by
    cases hTC : m.toolCalls with
    | nil => exact absurd hTC hc
    | cons c cs => simp [hm, hTC]
  have hrev : (pre ++ m :: post).reverse = post.reverse ++ (m :: pre.reverse) := by
    simp
  unfold applyEditsCore
  rw [hrev, findEditMsgRev_append_of_skip post.reverse (m :: pre.reverse)
    (by intro p hp; exact hpost p (by simpa using hp))]
  simp [findEditMsgRev, hcond]

/-- Witness for C7: with an older AI tool-call message in `pre` and a
tool-result message after `m`, only `m`'s batch is applied. -/
theorem c7_latest_tool_message_only_witness :
    applyEditsCore
        ([⟨true, "a1", [], [⟨"update_document", [("new_content", "OLD".data)]⟩]⟩]
          ++ ⟨true, "a2", [], [⟨"update_document", [("new_content", "NEW".data)]⟩]⟩
          :: [⟨false, "t1", "Document updated successfully.".data, []⟩])
        "Doc".data
      = applyCalls [⟨"update_document", [("new_content", "NEW".data)]⟩] "Doc".data :=
  c7_latest_tool_message_only
    [⟨true, "a1", [], [⟨"update_document", [("new_content", "OLD".data)]⟩]⟩]
    [⟨false, "t1", "Document updated successfully.".data, []⟩]
    ⟨true, "a2", [], [⟨"update_document", [("new_content", "NEW".data)]⟩]⟩
    "Doc".data rfl (by decide) (by decide)

/-- C8: The `agent` node emits a UI notification exactly when the model
response carries zero tool calls, and the notification carries the kind
`"markdown_artifact"`, the current artifact content and the terminating
message's id (via `mkNotif`); over a whole completed turn — every scripted
response but the last carrying tool calls, the last carrying none — the
side channel receives exactly one notification, tagged with the
terminating message's id and carrying the artifact as left by the edits
applied earlier in the same turn. -/
theorem c8_ui_once_per_turn :
    (∀ (st : AgentState) (r : ModelResponse),
      (agentStep st r).ui
        = st.ui ++ (if r.toolCalls.isEmpty then [mkNotif (orDefault st.artifact) r.id]
                    else [])) ∧
    (∀ (script : List ModelResponse) (st : AgentState) (r : ModelResponse),
      (∀ s ∈ script, s.toolCalls ≠ []) → r.toolCalls = [] →
      (runTurn (script ++ [r]) st).ui
        = st.ui ++ [mkNotif (orDefault (runTurn (script ++ [r]) st).artifact) r.id]) := by
  have hsc : ∀ (msgs : List Message) (r : ModelResponse),
      shouldContinue (msgs ++ [mkAIMessage r])
        = if r.toolCalls.isEmpty then ENDNODE else "tools" := by
    intro msgs r
    simp only [shouldContinue, List.getLast?_append, List.getLast?_singleton, mkAIMessage]
    cases r.toolCalls <;> simp [ENDNODE]
  constructor
  · intro st r
    rfl
  · intro script
    induction script with
    | nil =>
      intro st r hmid hlast
      have hempty : r.toolCalls.isEmpty = true := by simp [hlast]
      have h1 : runTurn ([] ++ [r]) st = agentStep st r := by
        simp only [List.nil_append, runTurn]
        have hcond : shouldContinue (agentStep st r).messages = ENDNODE := by
          show shouldContinue (st.messages ++ [mkAIMessage r]) = ENDNODE
          rw [hsc, if_pos hempty]
        rw [hcond]
        simp [ENDNODE]
      rw [h1]
      show st.ui ++ agentUI st.artifact r = _
      simp [agentUI, hempty, agentStep]
    | cons s ss ih =>
      intro st r hmid hlast
      have hs : s.toolCalls ≠ [] := hmid s (by simp)
      have hsE : s.toolCalls.isEmpty = false := by
        cases h : s.toolCalls with
        | nil => exact absurd h hs
        | cons a b => rfl
      have h1 : runTurn ((s :: ss) ++ [r]) st
          = runTurn (ss ++ [r]) (applyEditsNode (toolsStep (agentStep st s) s.toolCalls)) := by
        simp only [List.cons_append, runTurn]
        have hcond : shouldContinue (agentStep st s).messages = "tools" := by
          show shouldContinue (st.messages ++ [mkAIMessage s]) = "tools"
          rw [hsc, if_neg (by simp [hsE])]
        rw [hcond]
        simp
      rw [h1]
      have hui : (applyEditsNode (toolsStep (agentStep st s) s.toolCalls)).ui = st.ui := by
        show st.ui ++ agentUI st.artifact s = st.ui
        simp [agentUI, hsE]
      have hrec := ih (applyEditsNode (toolsStep (agentStep st s) s.toolCalls)) r
        (fun q hq => hmid q (by simp [hq])) hlast
      rw [hui] at hrec
      exact hrec

/-- Witness for C8: one editing cycle then a terminating response; exactly
one notification appears, tagged with the terminating id. -/
theorem c8_ui_once_per_turn_witness :
    (runTurn ([⟨"a1", [], [⟨"append_to_document", [("content_to_add", "Hi".data)]⟩]⟩]
          ++ [⟨"a2", "done".data, []⟩]) ⟨[], [], some "Doc".data⟩).ui
      = [] ++ [mkNotif
          (orDefault (runTurn
            ([⟨"a1", [], [⟨"append_to_document", [("content_to_add", "Hi".data)]⟩]⟩]
              ++ [⟨"a2", "done".data, []⟩]) ⟨[], [], some "Doc".data⟩).artifact) "a2"] :=
  c8_ui_once_per_turn.2
    [⟨"a1", [], [⟨"append_to_document", [("content_to_add", "Hi".data)]⟩]⟩]
    ⟨[], [], some "Doc".data⟩ ⟨"a2", "done".data, []⟩ (by decide) rfl

/-- C9: A tool call whose operation name is none of the three known
identifiers leaves the artifact exactly as the preceding operations left
it: it is the identity on the artifact, and deleting it from any position
of any batch does not change the batch's result. -/
theorem c9_unknown_name_ignored (c : ToolCall)
    (h1 : c.name ≠ "update_document") (h2 : c.name ≠ "append_to_document")
    (h3 : c.name ≠ "replace_text") :
    (∀ A, applyToolCall c A = A) ∧
    (∀ (pre post : List ToolCall) (A : Content),
      applyCalls (pre ++ c :: post) A = applyCalls (pre ++ post) A) := by
  have hA : ∀ A, applyToolCall c A = A := by
    intro A
    simp [applyToolCall, h1, h2, h3]
  refine ⟨hA, ?_⟩
  intro pre post A
  simp [applyCalls, List.foldl_append, List.foldl_cons, hA]

/-- Witness for C9: an unrecognised name `delete_document` in the middle of
a batch is ignored. -/
theorem c9_unknown_name_ignored_witness :
    applyToolCall ⟨"delete_document", [("target", "x".data)]⟩ "Doc".data = "Doc".data ∧
    applyCalls ([⟨"update_document", [("new_content", "X".data)]⟩]
        ++ ⟨"delete_document", [("target", "x".data)]⟩
        :: [⟨"append_to_document", [("content_to_add", "Y".data)]⟩]) "Doc".data
      = applyCalls ([⟨"update_document", [("new_content", "X".data)]⟩]
        ++ [⟨"append_to_document", [("content_to_add", "Y".data)]⟩]) "Doc".data :=
  ⟨(c9_unknown_name_ignored ⟨"delete_document", [("target", "x".data)]⟩
      (by decide) (by decide) (by decide)).1 "Doc".data,
   (c9_unknown_name_ignored ⟨"delete_document", [("target", "x".data)]⟩
      (by decide) (by decide) (by decide)).2
     [⟨"update_document", [("new_content", "X".data)]⟩]
     [⟨"append_to_document", [("content_to_add", "Y".data)]⟩] "Doc".data⟩

/-- C10: When the incoming artifact field is absent (`none`) or the empty
string, both the edit-application node and the model node's UI emission
operate on the fixed default document; consequently, once an edit leaves
the empty string in the state, the next cycle reads the default artifact
rather than the empty document. -/
theorem c10_default_artifact :
    (∀ (msgs : List Message) (u : List UINotification) (a : Option Content),
      a = none ∨ a = some [] →
      applyEditsNode ⟨msgs, u, a⟩
        = ⟨msgs, u, some (applyEditsCore msgs DEFAULT_ARTIFACT)⟩) ∧
    (∀ (a : Option Content) (r : ModelResponse),
      a = none ∨ a = some [] →
      agentUI a r = if r.toolCalls.isEmpty then [mkNotif DEFAULT_ARTIFACT r.id] else []) ∧
    (∀ st : AgentState,
      (applyEditsNode st).artifact = some [] →
      orDefault (applyEditsNode st).artifact = DEFAULT_ARTIFACT) := by
  have hod : ∀ a : Option Content, a = none ∨ a = some [] →
      orDefault a = DEFAULT_ARTIFACT := by
    rintro a (h | h) <;> subst h <;> rfl
  refine ⟨?_, ?_, ?_⟩
  · intro msgs u a h
    simp [applyEditsNode, hod a h]
  · intro a r h
    simp [agentUI, hod a h]
  · intro st h
    rw [h]
    rfl

/-- Witness for C10: an empty stored artifact is replaced by the default in
the edit node; a `replace_text` deleting the whole document leaves the
empty string, which the next read resolves to the default document. -/
theorem c10_default_artifact_witness :
    applyEditsNode ⟨[], [], some []⟩ = ⟨[], [], some (applyEditsCore [] DEFAULT_ARTIFACT)⟩ ∧
    orDefault (applyEditsNode
        ⟨[⟨true, "a1", [], [⟨"replace_text", [("old_text", "abc".data), ("new_text", [])]⟩]⟩],
         [], some "abc".data⟩).artifact
      = DEFAULT_ARTIFACT :=
  ⟨c10_default_artifact.1 [] [] (some []) (Or.inr rfl),
   c10_default_artifact.2.2
     ⟨[⟨true, "a1", [], [⟨"replace_text", [("old_text", "abc".data), ("new_text", [])]⟩]⟩],
      [], some "abc".data⟩
     (by simp [applyEditsNode, applyEditsCore, findEditMsgRev, applyCalls, applyToolCall,
        getArg, containsSub, replaceAll, orDefault])⟩
